import Mathlib

/-!
Verification model of `dxf_processor.py` (class `DxfProcessor`) from the
DXFExtract repository.

Conventions of the shallow embedding:
* Coordinates, radii and angles are exact rationals (ℚ) standing for the
  source's Python floats; arithmetic is modelled exactly.
* The source compares Euclidean distances (`math.hypot dx dy`) against other
  distances and against `connection_tolerance`.  Squaring is strictly monotone
  on nonnegative reals, so the model uses squared distances throughout and
  every tolerance parameter named `tol2` stands for the square
  `connection_tolerance ** 2`; every comparison below is order-equivalent to
  the source's comparison of un-squared values.
* Python dicts preserve insertion order; a dict is modelled as an association
  list `List (Nat × EntityData)` iterated in order; `dict.pop` is `popKey`.
* `ezdxf` is an external collaborator: the geometric attributes it computes
  (an arc's `start_point` / `end_point` from center, radius and angles) enter
  the model as data carried by `RawEntity`.
-/

namespace DxfProcessor

/- The arithmetic of ℚ is irreducible by default, which blocks kernel
evaluation of the executable model on concrete inputs; re-expose it. -/
attribute [local semireducible] Rat.add Rat.mul Rat.sub Rat.inv Rat.ofScientific

/-- 2-D point (the source keeps only the X,Y components of every coordinate). -/
structure Pt where
  x : ℚ
  y : ℚ
deriving DecidableEq

/-- Squared Euclidean distance; stands for `math.hypot (px - qx) (py - qy)`
squared, see the header commentary on squared tolerances. -/
def dist2 (p q : Pt) : ℚ := (p.x - q.x) * (p.x - q.x) + (p.y - q.y) * (p.y - q.y)

/-- The per-kind payload of the source's `coords` dictionary
(`dxf_processor.py` lines 44-47, 84-92, 104-107). -/
inductive EntityGeom
  | line (start_point end_point : Pt)
  | arc (center start_point end_point : Pt) (radius start_angle end_angle : ℚ)
      (is_clockwise : Bool)
  | circle (center : Pt) (radius : ℚ)
deriving DecidableEq

/-- One entry of the `entities_data` dictionary built by
`extract_dxf_entities`: id, `coords`, `reversed`, `original_id`,
`id_display`.  The `original_ezdxf_entity` field is represented by `geom`
itself (the model keeps the same geometric data once, which is what the
source's pairs of mirrored updates maintain). -/
structure EntityData where
  id : Nat
  geom : EntityGeom
  reversed : Bool
  original_id : Nat
  id_display : String
deriving DecidableEq

/-- Current start point of a LINE/ARC entity (`coords['start_point']`).
For a CIRCLE the source has no such key (an access would raise `KeyError`);
the model returns the center, and every use below is guarded so that the
circle branch is never reached on source-reachable data. -/
def sPt (e : EntityData) : Pt :=
  match e.geom with
  | .line sp _ => sp
  | .arc _ sp _ _ _ _ _ => sp
  | .circle c _ => c

/-- Current end point of a LINE/ARC entity (`coords['end_point']`); circle
case as in `sPt`. -/
def ePt (e : EntityData) : Pt :=
  match e.geom with
  | .line _ ep => ep
  | .arc _ _ ep _ _ _ _ => ep
  | .circle c _ => c

/-- The stored `coords['is_clockwise']` flag of an arc (`false` for the other
kinds, which carry no such key). -/
def geomCW : EntityGeom → Bool
  | .arc _ _ _ _ _ _ cw => cw
  | _ => false

/-- Kind test used by the source's `data['type'] == 'CIRCLE'` checks. -/
def isCircleB : EntityGeom → Bool
  | .circle _ _ => true
  | _ => false

/-- Floor of a rational as an integer (the numerator divided by the positive
denominator, rounding towards negative infinity). -/
def ratFloor (q : ℚ) : ℤ := q.num.fdiv q.den

/-- Round a rational to the nearest integer, ties to even — the rounding of
Python's fixed-point float formatting. -/
def roundHalfEven (x : ℚ) : ℤ :=
  let f : ℤ := ratFloor x
  let r : ℚ := x - f
  if r < 1 / 2 then f
  else if 1 / 2 < r then f + 1
  else if f % 2 = 0 then f else f + 1

/-- Two-decimal fixed-point formatting, model of the `:.2f` format spec used
in every `id_display` string of the source. -/
def fmt2 (q : ℚ) : String :=
  let n : ℤ := roundHalfEven (q * 100)
  let a : ℕ := n.natAbs
  let fr : ℕ := a % 100
  let frs : String := if fr < 10 then "0" ++ toString fr else toString fr
  (if n < 0 then "-" else "") ++ toString (a / 100) ++ "." ++ frs

/-- Python's `angle % 360` on real numbers: the representative in `[0, 360)`. -/
def normAngle (a : ℚ) : ℚ := a - 360 * (ratFloor (a / 360) : ℤ)

/-- The arc-direction rule of `extract_dxf_entities`
(`dxf_processor.py` lines 62-78): normalize both angles to `[0,360)` and
compare the two possible sweeps. -/
def arcIsClockwise (start_angle end_angle : ℚ) : Bool :=
  let ns := normAngle start_angle
  let ne := normAngle end_angle
  if ns < ne then decide (ne - ns > 180)
  else if ne < ns then decide (ns - ne < 180)
  else false

/-- A raw modelspace entity as handed over by the `ezdxf` collaborator.  For
an arc, `start_point` and `end_point` are the points ezdxf derives from
center, radius and the angles (`cloned_entity.start_point`, line 58-59). -/
inductive RawEntity
  | rawLine (start_point end_point : Pt)
  | rawArc (center : Pt) (radius start_angle end_angle : ℚ)
      (start_point end_point : Pt)
  | rawCircle (center : Pt) (radius : ℚ)
deriving DecidableEq

/-- The record `extract_dxf_entities` builds for one entity that received the
id `entity_id` (lines 37-111), including the exact `id_display` f-strings. -/
def extractEntity (entity_id : Nat) : RawEntity → EntityData
  | .rawLine sp ep =>
    { id := entity_id, geom := .line sp ep, reversed := false,
      original_id := entity_id,
      id_display := "L" ++ toString entity_id ++ ": (" ++ fmt2 sp.x ++ ","
        ++ fmt2 sp.y ++ ")->(" ++ fmt2 ep.x ++ "," ++ fmt2 ep.y ++ ")" }
  | .rawArc c r sa ea sp ep =>
    { id := entity_id, geom := .arc c sp ep r sa ea (arcIsClockwise sa ea),
      reversed := false, original_id := entity_id,
      id_display := "A" ++ toString entity_id ++ ": R" ++ fmt2 r ++ " ("
        ++ fmt2 sp.x ++ "," ++ fmt2 sp.y ++ ")->(" ++ fmt2 ep.x ++ ","
        ++ fmt2 ep.y ++ ")" }
  | .rawCircle c r =>
    { id := entity_id, geom := .circle c r, reversed := false,
      original_id := entity_id,
      id_display := "C" ++ toString entity_id ++ ": R" ++ fmt2 r
        ++ " (Center:" ++ fmt2 c.x ++ "," ++ fmt2 c.y ++ ")" }

/-- The extraction loop: ids come from `itertools.count(1)`, one per
modelspace entity in file order. -/
def extractFrom (next_id : Nat) : List RawEntity → List (Nat × EntityData)
  | [] => []
  | r :: rest => (next_id, extractEntity next_id r) :: extractFrom (next_id + 1) rest

/-- `extract_dxf_entities` restricted to its pure core: the dictionary built
from the already-parsed modelspace entities (file I/O and message boxes are
collaborator concerns outside the model). -/
def extract_dxf_entities (raws : List RawEntity) : List (Nat × EntityData) :=
  extractFrom 1 raws

/-- `reverse_segment_direction` (lines 126-171) as a pure function on the
record it mutates in place.  For an ARC the source swaps the two angles on
the ezdxf entity and re-reads the derived `start_point` / `end_point`; since
those derived points are functions of (center, radius, angle) and the new
start angle is the old end angle, the re-read yields exactly the old end
point, which is how the model states it.  `is_clockwise` is negated
(line 153), not re-derived.  The `reversed` flag flips for every kind,
CIRCLE included (line 156 runs unconditionally). -/
def reverse_segment_direction (e : EntityData) : EntityData :=
  match e.geom with
  | .line sp ep =>
    let rev := !e.reversed
    let base := "L" ++ toString e.original_id ++ " (" ++ fmt2 ep.x ++ ","
      ++ fmt2 ep.y ++ ")->(" ++ fmt2 sp.x ++ "," ++ fmt2 sp.y ++ ")"
    { e with
      geom := .line ep sp
      reversed := rev
      id_display := if rev then base ++ " [R]" else base }
  | .arc c sp ep r sa ea cw =>
    let rev := !e.reversed
    let base := "A" ++ toString e.original_id ++ ": R" ++ fmt2 r ++ " ("
      ++ fmt2 ep.x ++ "," ++ fmt2 ep.y ++ ")->(" ++ fmt2 sp.x ++ ","
      ++ fmt2 sp.y ++ ")"
    { e with
      geom := .arc c ep sp r ea sa (!cw)
      reversed := rev
      id_display := if rev then base ++ " [R]" else base }
  | .circle _ _ => { e with reversed := !e.reversed }

/-- Comparison against the running minimum of `_get_best_candidate_info`;
`none` is the initial `float('inf')`. -/
def ltMinD (x : ℚ) : Option ℚ → Bool
  | none => true
  | some m => decide (x < m)

/-- The scan of `_get_best_candidate_info` (lines 182-203).  The accumulator
is the triple `(best_match_id, best_should_reverse, min_distance)`; the start
point is tested before the end point, and the end-point test reads the
minimum updated by the start-point test, exactly as in the source. -/
def bestFold (reference_point : Pt) :
    List (Nat × EntityData) → Option Nat × Bool × Option ℚ →
      Option Nat × Bool × Option ℚ
  | [], acc => acc
  | (entity_id, data) :: rest, acc =>
    if isCircleB data.geom then bestFold reference_point rest acc
    else
      let dist_to_start := dist2 reference_point (sPt data)
      let dist_to_end := dist2 reference_point (ePt data)
      let acc1 := if ltMinD dist_to_start acc.2.2 then
        (some entity_id, false, some dist_to_start) else acc
      let acc2 := if ltMinD dist_to_end acc1.2.2 then
        (some entity_id, true, some dist_to_end) else acc1
      bestFold reference_point rest acc2

/-- `_get_best_candidate_info` (lines 174-205). -/
def get_best_candidate_info (reference_point : Pt)
    (entities_to_search : List (Nat × EntityData)) :
    Option Nat × Bool × Option ℚ :=
  bestFold reference_point entities_to_search (none, false, none)

/-- `dict.pop k`: the stored value and the dictionary without that key
(`none` when the key is absent). -/
def popKey (k : Nat) :
    List (Nat × EntityData) → Option (EntityData × List (Nat × EntityData))
  | [] => none
  | (k2, d) :: rest =>
    if k2 = k then some (d, rest)
    else
      match popKey k rest with
      | some (d2, rest2) => some (d2, (k2, d) :: rest2)
      | none => none

/-- One round of the inner `while True` of `generate_auto_path`
(lines 355-360): ask `_get_best_candidate_info` for the nearest candidate;
when one exists within the (squared) tolerance, pop it and orient it
(`next_should_reverse`).  `none` is the `break`. -/
def chainStep (tol2 : ℚ) (current_active_point : Pt)
    (pool : List (Nat × EntityData)) :
    Option (EntityData × List (Nat × EntityData)) :=
  match get_best_candidate_info current_active_point pool with
  | (some next_match_id, next_should_reverse, some connection_dist) =>
    if connection_dist ≤ tol2 then
      match popKey next_match_id pool with
      | some (next_segment_data, rest) =>
        some ((if next_should_reverse then
          reverse_segment_direction next_segment_data else next_segment_data),
          rest)
      | none => none  -- unreachable: the best candidate's key is in the pool
    else none
  | _ => none

/-- The inner `while True` of `generate_auto_path` (lines 354-366): keep
appending `chainStep` results and advancing the active point to each new
segment's end.  `fuel` bounds the iterations; every iteration pops one
entity, so passing the pool size (as the callers below do) never cuts the
loop short. -/
def chainLoop (tol2 : ℚ) :
    Nat → Pt → List (Nat × EntityData) →
      List EntityData × List (Nat × EntityData)
  | 0, _, pool => ([], pool)
  | fuel + 1, current_active_point, pool =>
    match chainStep tol2 current_active_point pool with
    | some (seg, rest) =>
      let r := chainLoop tol2 fuel (ePt seg) rest
      (seg :: r.1, r.2)
    | none => ([], pool)

/-- Default choice of an island's first segment (lines 340-348): the best
candidate relative to the origin, popped and oriented, with no tolerance
test; the Bool keeps `started_with_user_specified_entity` unchanged. -/
def defaultFirst (seedUsed : Bool) (pool : List (Nat × EntityData)) :
    Option (EntityData × List (Nat × EntityData) × Bool) :=
  match get_best_candidate_info ⟨0, 0⟩ pool with
  | (some initial_segment_id, initial_should_reverse, _) =>
    match popKey initial_segment_id pool with
    | some (data, rest) =>
      some ((if initial_should_reverse then
        reverse_segment_direction data else data), rest, seedUsed)
    | none => none
  | _ => none

/-- Choice of an island's first segment (lines 330-348): the user seed is
tried while `started_with_user_specified_entity` is still false — popping it
by its `id` and matching its `reversed` flag — and on failure the source's
`pass` falls through to the default choice with the flag still unset. -/
def islandFirst (seed : Option EntityData) (seedUsed : Bool)
    (pool : List (Nat × EntityData)) :
    Option (EntityData × List (Nat × EntityData) × Bool) :=
  match seed, seedUsed with
  | some sd, false =>
    match popKey sd.id pool with
    | some (data, rest) =>
      some ((if sd.reversed ≠ data.reversed then
        reverse_segment_direction data else data), rest, true)
    | none => defaultFirst seedUsed pool
  | _, _ => defaultFirst seedUsed pool

/-- The outer `while remaining_entities_processing` of `generate_auto_path`
(lines 326-370), one list entry per island; `fuel` again bounds the rounds,
and each round pops at least one entity. -/
def autoPathLoop (tol2 : ℚ) (seed : Option EntityData) :
    Nat → Bool → List (Nat × EntityData) → List (List EntityData)
  | 0, _, _ => []
  | fuel + 1, seedUsed, pool =>
    if pool.isEmpty then []
    else
      match islandFirst seed seedUsed pool with
      | some (first, rest, su2) =>
        let c := chainLoop tol2 rest.length (ePt first) rest
        (first :: c.1) :: autoPathLoop tol2 seed fuel su2 c.2
      | none => []

/-- `generate_auto_path`, grouped by island: each list entry is the
`current_path_segments` of one round of the outer while-loop;
`ordered_segments_local` receives their concatenation via `extend`. -/
def generate_auto_path_chains (tol2 : ℚ)
    (current_dxf_entities : List (Nat × EntityData))
    (start_entity_data : Option EntityData) : List (List EntityData) :=
  if current_dxf_entities = [] then []
  else
    let pool0 := current_dxf_entities.filter (fun e => !isCircleB e.2.geom)
    autoPathLoop tol2 start_entity_data pool0.length false pool0

/-- `generate_auto_path` (lines 304-372): the pair
`(ordered_segments_local, isolated_circles)`. -/
def generate_auto_path (tol2 : ℚ)
    (current_dxf_entities : List (Nat × EntityData))
    (start_entity_data : Option EntityData) :
    List EntityData × List EntityData :=
  if current_dxf_entities = [] then ([], [])
  else
    ((generate_auto_path_chains tol2 current_dxf_entities start_entity_data).flatten,
     (current_dxf_entities.filter (fun e => isCircleB e.2.geom)).map (fun e => e.2))

/-- One emitted G-code line of `generate_gcode`, keeping the machine-relevant
data of the exact strings: `setup` is the `G90 G21 G17 G40 G49 G80` header,
`rapid`/`linear` are `G00`/`G01` with their X/Y words, `circular` is
`G02` (flag true) or `G03` (flag false is CCW) with X/Y/I/J words, `progEnd`
is `M02`; the `N..` line numbers are the positions in the emitted list. -/
inductive GCmd
  | setup
  | comment (text : String)
  | rapid (x y : ℚ)
  | linear (x y : ℚ)
  | circular (clockwise : Bool) (x y i j : ℚ)
  | progEnd
deriving DecidableEq

/-- A value of `dxf_segment_id_map`: the structural markers, the synthetic
jump markers (`JUMP_TO_DXF_<id>`, `JUMP_TO_CIRCLE_<id>`) and the plain
`original_id` tags. -/
inductive Tag
  | initSetup
  | initPosition
  | pathCommentLinesArcs
  | pathCommentCircles
  | jumpToDxf (id : Nat)
  | jumpToCircle (id : Nat)
  | dxfId (id : Nat)
  | programEnd
deriving DecidableEq

/-- The motion command one LINE/ARC segment contributes (lines 243-259),
given the tool position `pos1` current when it is emitted.  The circle case
is unreachable from `generate_auto_path` output (the source would have
raised `KeyError` earlier); it contributes a marker comment. -/
def motionCmd (pos1 : Pt) (segment_data : EntityData) : GCmd × Tag :=
  match segment_data.geom with
  | .line _ ep => (.linear ep.x ep.y, .dxfId segment_data.original_id)
  | .arc c _ ep _ _ _ cw =>
    (.circular cw ep.x ep.y (c.x - pos1.x) (c.y - pos1.y),
     .dxfId segment_data.original_id)
  | .circle _ _ => (.comment "unreachable", .dxfId segment_data.original_id)

/-- The LINE/ARC section of `generate_gcode` (lines 229-261): for each
segment, a rapid jump when the (squared) distance from the current position
to the segment start exceeds the (squared) tolerance — updating the current
position — then the motion command, then the current position becomes the
segment end.  A CIRCLE in this list is unreachable from
`generate_auto_path` output (the source would raise `KeyError`); the model
skips it. -/
def gcodeSegs (tol2 : ℚ) : Pt → List EntityData → List (GCmd × Tag)
  | _, [] => []
  | pos, segment_data :: rest =>
    if isCircleB segment_data.geom then gcodeSegs tol2 pos rest
    else
      let st := sPt segment_data
      let jump := decide (dist2 pos st > tol2)
      let pos1 := if jump then st else pos
      let jcmds : List (GCmd × Tag) :=
        if jump then [(.rapid st.x st.y, .jumpToDxf segment_data.original_id)]
        else []
      jcmds ++ motionCmd pos1 segment_data :: gcodeSegs tol2 (ePt segment_data) rest

/-- The isolated-circles section of `generate_gcode` (lines 269-294): an
unconditional rapid jump to the point at angle 0 on the circle, then one full
`G03` back to that point; the `I`/`J` offsets come out as
`(center - start)`, and the current position equals the start both before and
after the `G03`.  A non-CIRCLE entity here is unreachable (the source would
raise `KeyError`); the model skips it. -/
def gcodeCircles : List EntityData → List (GCmd × Tag)
  | [] => []
  | circle_data :: rest =>
    match circle_data.geom with
    | .circle center radius =>
      let start_x_circle := center.x + radius
      let start_y_circle := center.y
      let i_offset := center.x - start_x_circle
      let j_offset := center.y - start_y_circle
      (.rapid start_x_circle start_y_circle,
        .jumpToCircle circle_data.original_id) ::
      (.circular false start_x_circle start_y_circle i_offset j_offset,
        .dxfId circle_data.original_id) ::
      gcodeCircles rest
    | _ => gcodeCircles rest

/-- `generate_gcode` (lines 207-302): header, LINE/ARC path, optional
isolated-circles section, footer; each list position is the
`gcode_line_idx` key of `dxf_segment_id_map`. -/
def generate_gcode (tol2 : ℚ)
    (ordered_segments_data_list isolated_circles_data_list : List EntityData)
    (initial_start_point : Pt) : List (GCmd × Tag) :=
  [(.setup, .initSetup),
   (.rapid initial_start_point.x initial_start_point.y, .initPosition),
   (.comment "Start of DXF Path (Lines and Arcs)", .pathCommentLinesArcs)]
  ++ gcodeSegs tol2 initial_start_point ordered_segments_data_list
  ++ (if isolated_circles_data_list.isEmpty then []
      else (.comment "Start of DXF Isolated Circles", .pathCommentCircles)
        :: gcodeCircles isolated_circles_data_list)
  ++ [(.progEnd, .programEnd)]

/-- Claim C2's clockwise rule, written from the claim's wording: normalize
both angles to `[0,360)`; if normalized start is below normalized end,
clockwise iff the difference end minus start exceeds 180; if normalized start
is above normalized end, clockwise iff start minus end is below 180; if
equal, counter-clockwise. -/
def claimClockwise (start_angle end_angle : ℚ) : Bool :=
  let ns := normAngle start_angle
  let ne := normAngle end_angle
  if ns < ne then decide (ne - ns > 180)
  else if ns > ne then decide (ns - ne < 180)
  else false

/-- The per-segment emission described by claim C3: a rapid traverse to the
segment's start point, tagged with the jump marker for the segment's
`original_id`, exactly when the (squared) distance from the current position
exceeds the (squared) tolerance; the current position is then the segment's
start point when the motion command is formed, and stays put otherwise. -/
def claimSegBlock (tol2 : ℚ) (pos : Pt) (segment_data : EntityData) :
    List (GCmd × Tag) :=
  if dist2 pos (sPt segment_data) > tol2 then
    (.rapid (sPt segment_data).x (sPt segment_data).y,
      .jumpToDxf segment_data.original_id)
      :: [motionCmd (sPt segment_data) segment_data]
  else [motionCmd pos segment_data]

/-- The per-circle command block of claim C7, amended: the canonical start
point `center + (radius, 0)`, an unconditional rapid traverse to it tagged
with the circle's jump marker, then exactly one full counter-clockwise
circular command back to that same point with center offsets
`(-radius, 0)`, tagged with the circle's `original_id`. -/
def circleBlock (circle_data : EntityData) : List (GCmd × Tag) :=
  match circle_data.geom with
  | .circle center radius =>
    [(.rapid (center.x + radius) center.y,
       .jumpToCircle circle_data.original_id),
     (.circular false (center.x + radius) center.y (-radius) 0,
       .dxfId circle_data.original_id)]
  | _ => []

/-- Squared connection tolerance for the concrete examples: the spec's
`connection_tolerance = 1e-4`, squared. -/
def exTol2 : ℚ := 1 / 100000000

def exLineA : EntityData := extractEntity 1 (.rawLine ⟨0, 0⟩ ⟨1, 0⟩)

def exLineB : EntityData := extractEntity 2 (.rawLine ⟨5, 0⟩ ⟨6, 0⟩)

/-- Spec Example 4: two lines with a gap of 4 units between the islands. -/
def exTwoIslands : List (Nat × EntityData) := [(1, exLineA), (2, exLineB)]

/-- Spec Example 3's circle. -/
def exCircle : EntityData := extractEntity 1 (.rawCircle ⟨5, 5⟩ 3)

/-- A circle whose canonical start point is the origin. -/
def exCircleAtOrigin : EntityData := extractEntity 1 (.rawCircle ⟨-1, 0⟩ 1)

/-- A full-circle-style arc: equal start and end angles. -/
def exFullArc : EntityData :=
  extractEntity 1 (.rawArc ⟨0, 0⟩ 1 0 0 ⟨1, 0⟩ ⟨1, 0⟩)

/-- Soundness invariant of the `_get_best_candidate_info` accumulator: either
still the initial `(None, _, inf)` state, or the recorded id belongs to a
non-circle entity of `pool0` whose chosen endpoint (end when
`best_should_reverse`, start otherwise) realises the recorded minimum. -/
def BestInv (ref : Pt) (pool0 : List (Nat × EntityData)) :
    Option Nat × Bool × Option ℚ → Prop
  | (none, _, none) => True
  | (some k, rev, some d) =>
      ∃ e, (k, e) ∈ pool0 ∧ isCircleB e.geom = false
        ∧ d = dist2 ref (if rev then ePt e else sPt e)
  | _ => False

/-- Executable form of the claim C1 continuity property: every adjacent pair
of the list has (squared) gap at most `tol2`. -/
def contiguous (tol2 : ℚ) : List EntityData → Bool
  | [] => true
  | [_] => true
  | a :: b :: rest =>
      decide (dist2 (ePt a) (sPt b) ≤ tol2) && contiguous tol2 (b :: rest)

theorem contiguous_iff_chain' (tol2 : ℚ) :
    ∀ l : List EntityData,
      contiguous tol2 l = true
        ↔ List.Chain' (fun a b => dist2 (ePt a) (sPt b) ≤ tol2) l
  | [] => by simp [contiguous]
  | [a] => by simp [contiguous]
  | a :: b :: rest => by
    rw [List.chain'_cons]
    simp [contiguous, ← contiguous_iff_chain' tol2 (b :: rest)]

theorem reverse_original_id (e : EntityData) :
    (reverse_segment_direction e).original_id = e.original_id := by
  rcases e with ⟨eid, g, rev, oid, disp⟩
  cases g <;> rfl

theorem reverse_isCircleB (e : EntityData) :
    isCircleB (reverse_segment_direction e).geom = isCircleB e.geom := by
  rcases e with ⟨eid, g, rev, oid, disp⟩
  cases g <;> rfl

theorem sPt_reverse (e : EntityData) (h : isCircleB e.geom = false) :
    sPt (reverse_segment_direction e) = ePt e := by
  rcases e with ⟨eid, g, rev, oid, disp⟩
  cases g with
  | line sp ep => rfl
  | arc c sp ep r sa ea cw => rfl
  | circle c r => simp [isCircleB] at h

theorem popKey_perm (k : Nat) :
    ∀ (pool rest : List (Nat × EntityData)) (d : EntityData),
      popKey k pool = some (d, rest) → pool.Perm ((k, d) :: rest) := by
  intro pool
  induction pool with
  | nil => intro rest d h; simp [popKey] at h
  | cons hd tl ih =>
    intro rest d h
    obtain ⟨k2, d2⟩ := hd
    by_cases hk : k2 = k
    · simp only [popKey, if_pos hk] at h
      obtain ⟨h1, h2⟩ := Prod.mk.injEq .. ▸ Option.some.inj h
      subst hk h1 h2
      exact List.Perm.refl _
    · simp only [popKey, if_neg hk] at h
      cases htl : popKey k tl with
      | none => rw [htl] at h; simp at h
      | some p =>
        obtain ⟨d3, rest3⟩ := p
        rw [htl] at h
        simp only [Option.some.injEq, Prod.mk.injEq] at h
        obtain ⟨h1, h2⟩ := h
        rw [← h2, ← h1]
        exact ((ih rest3 d3 htl).cons (k2, d2)).trans (List.Perm.swap _ _ _)

theorem popKey_sub (k : Nat) (pool rest : List (Nat × EntityData))
    (d : EntityData) (h : popKey k pool = some (d, rest)) :
    ∀ x ∈ rest, x ∈ pool := by
  intro x hx
  exact (popKey_perm k pool rest d h).mem_iff.2 (List.mem_cons_of_mem _ hx)

theorem popKey_length (k : Nat) (pool rest : List (Nat × EntityData))
    (d : EntityData) (h : popKey k pool = some (d, rest)) :
    pool.length = rest.length + 1 :=
  (popKey_perm k pool rest d h).length_eq

theorem popKey_nodup (k : Nat) (pool rest : List (Nat × EntityData))
    (d : EntityData) (hnd : (pool.map Prod.fst).Nodup)
    (h : popKey k pool = some (d, rest)) : (rest.map Prod.fst).Nodup := by
  have hp := (popKey_perm k pool rest d h).map Prod.fst
  exact (List.Perm.nodup_iff hp |>.1 hnd).of_cons

theorem popKey_isSome_of_mem (k : Nat) (e : EntityData) :
    ∀ pool : List (Nat × EntityData), (k, e) ∈ pool → (popKey k pool).isSome := by
  intro pool
  induction pool with
  | nil => intro h; simp at h
  | cons hd tl ih =>
    intro hmem
    obtain ⟨k2, d2⟩ := hd
    by_cases hk : k2 = k
    · simp [popKey, hk]
    · have htl : (k, e) ∈ tl := by
        rcases List.mem_cons.1 hmem with h | h
        · exact absurd (congrArg Prod.fst h).symm hk
        · exact h
      have := ih htl
      simp only [popKey, if_neg hk]
      cases hp : popKey k tl with
      | none => rw [hp] at this; simp at this
      | some p => obtain ⟨d3, rest3⟩ := p; simp

theorem popKey_val_of_nodup (k : Nat) (e : EntityData) :
    ∀ (pool rest : List (Nat × EntityData)) (d : EntityData),
      (pool.map Prod.fst).Nodup → (k, e) ∈ pool →
      popKey k pool = some (d, rest) → d = e := by
  intro pool
  induction pool with
  | nil => intro rest d _ h; simp at h
  | cons hd tl ih =>
    intro rest d hnd hmem h
    obtain ⟨k2, d2⟩ := hd
    by_cases hk : k2 = k
    · simp only [popKey, if_pos hk] at h
      obtain ⟨h1, h2⟩ := Prod.mk.injEq .. ▸ Option.some.inj h
      rcases List.mem_cons.1 hmem with hh | hh
      · rw [← h1]
        exact (congrArg Prod.snd hh).symm
      · exfalso
        have : k ∈ tl.map Prod.fst := List.mem_map.2 ⟨(k, e), hh, rfl⟩
        rw [← hk] at this
        exact (List.nodup_cons.1 (by simpa using hnd)).1 this
    · simp only [popKey, if_neg hk] at h
      have hmem2 : (k, e) ∈ tl := by
        rcases List.mem_cons.1 hmem with hh | hh
        · exact absurd (congrArg Prod.fst hh).symm hk
        · exact hh
      cases htl : popKey k tl with
      | none => rw [htl] at h; simp at h
      | some p =>
        obtain ⟨d3, rest3⟩ := p
        rw [htl] at h
        simp only [Option.some.injEq, Prod.mk.injEq] at h
        exact h.1 ▸ ih rest3 d3 (List.nodup_cons.1 (by simpa using hnd)).2 hmem2 htl

theorem bestFold_inv (ref : Pt) (pool0 : List (Nat × EntityData)) :
    ∀ (l : List (Nat × EntityData)) (acc : Option Nat × Bool × Option ℚ),
      (∀ x ∈ l, x ∈ pool0) → BestInv ref pool0 acc →
      BestInv ref pool0 (bestFold ref l acc) := by
  intro l
  induction l with
  | nil => intro acc _ hacc; exact hacc
  | cons hd tl ih =>
    intro acc hsub hacc
    obtain ⟨k, data⟩ := hd
    by_cases hc : isCircleB data.geom
    · simp only [bestFold, if_pos hc]
      exact ih acc (fun x hx => hsub x (List.mem_cons_of_mem _ hx)) hacc
    · simp only [bestFold, if_neg hc]
      have hnc : isCircleB data.geom = false := Bool.not_eq_true _ ▸ hc
      have step : ∀ (rev : Bool) (q : Pt) (hq : q = if rev then ePt data else sPt data)
          (a : Option Nat × Bool × Option ℚ),
          BestInv ref pool0 a →
          BestInv ref pool0
            (if ltMinD (dist2 ref q) a.2.2 = true
             then (some k, rev, some (dist2 ref q))
             else a) := by
        intro rev q hq a ha
        by_cases hlt : ltMinD (dist2 ref q) a.2.2 = true
        · rw [if_pos hlt]
          exact show ∃ e, (k, e) ∈ pool0 ∧ isCircleB e.geom = false
              ∧ dist2 ref q = dist2 ref (if rev then ePt e else sPt e) from
            ⟨data, hsub _ (List.mem_cons_self _ _), hnc, by rw [hq]⟩
        · rw [if_neg hlt]
          exact ha
      exact ih _ (fun x hx => hsub x (List.mem_cons_of_mem _ hx))
        (step true _ rfl _ (step false _ rfl acc hacc))

theorem bestFold_isSome (ref : Pt) :
    ∀ (l : List (Nat × EntityData)) (acc : Option Nat × Bool × Option ℚ),
      acc.1.isSome → (bestFold ref l acc).1.isSome := by
  intro l
  induction l with
  | nil => intro acc h; exact h
  | cons hd tl ih =>
    intro acc hacc
    obtain ⟨k, data⟩ := hd
    by_cases hc : isCircleB data.geom
    · simp only [bestFold, if_pos hc]
      exact ih acc hacc
    · simp only [bestFold, if_neg hc]
      apply ih
      have upd : ∀ (c : Bool) (rev : Bool) (dd : ℚ)
          (a : Option Nat × Bool × Option ℚ), a.1.isSome →
          (if c = true then ((some k : Option Nat), rev, some dd) else a).1.isSome := by
        intro c rev dd a ha
        cases c
        · simpa using ha
        · simp
      exact upd _ _ _ _ (upd _ _ _ _ hacc)

theorem bestFold_noncircle_isSome (ref : Pt) :
    ∀ (l : List (Nat × EntityData)) (acc : Option Nat × Bool × Option ℚ),
      acc.2.2 = none → (∃ x ∈ l, isCircleB x.2.geom = false) →
      (bestFold ref l acc).1.isSome := by
  intro l
  induction l with
  | nil => intro acc _ hex; simp at hex
  | cons hd tl ih =>
    intro acc hmin hex
    obtain ⟨k, data⟩ := hd
    by_cases hc : isCircleB data.geom
    · simp only [bestFold, if_pos hc]
      apply ih acc hmin
      rcases hex with ⟨x, hx, hxc⟩
      rcases List.mem_cons.1 hx with h | h
      · rw [h] at hxc; exact absurd hxc (by simp [hc])
      · exact ⟨x, h, hxc⟩
    · simp only [bestFold, if_neg hc]
      apply bestFold_isSome
      have upd : ∀ (c : Bool) (rev : Bool) (dd : ℚ)
          (a : Option Nat × Bool × Option ℚ), a.1.isSome →
          (if c = true then ((some k : Option Nat), rev, some dd) else a).1.isSome := by
        intro c rev dd a ha
        cases c
        · simpa using ha
        · simp
      apply upd
      rw [hmin]
      simp [ltMinD]

theorem get_best_spec (ref : Pt) (pool : List (Nat × EntityData))
    (k : Nat) (rev : Bool) (dq : Option ℚ)
    (h : get_best_candidate_info ref pool = (some k, rev, dq)) :
    ∃ d e, dq = some d ∧ (k, e) ∈ pool ∧ isCircleB e.geom = false
      ∧ d = dist2 ref (if rev then ePt e else sPt e) := by
  have hb : BestInv ref pool (get_best_candidate_info ref pool) :=
    bestFold_inv ref pool pool (none, false, none) (fun _ hx => hx) trivial
  rw [h] at hb
  cases dq with
  | none => exact absurd hb (by simp [BestInv])
  | some d =>
    obtain ⟨e, h1, h2, h3⟩ := hb
    exact ⟨d, e, rfl, h1, h2, h3⟩

theorem get_best_isSome (ref : Pt) (pool : List (Nat × EntityData))
    (hne : ∃ x ∈ pool, isCircleB x.2.geom = false) :
    (get_best_candidate_info ref pool).1.isSome :=
  bestFold_noncircle_isSome ref pool (none, false, none) rfl hne

theorem chainStep_spec (tol2 : ℚ) (active : Pt) (pool : List (Nat × EntityData))
    (seg : EntityData) (rest : List (Nat × EntityData))
    (h : chainStep tol2 active pool = some (seg, rest)) :
    ∃ k data, popKey k pool = some (data, rest)
      ∧ (seg = data ∨ seg = reverse_segment_direction data) := by
  unfold chainStep at h
  split at h
  · rename_i k b2 d heq
    split at h
    · rename_i hd
      split at h
      · rename_i data rest2 hp
        simp only [Option.some.injEq, Prod.mk.injEq] at h
        obtain ⟨h1, h2⟩ := h
        subst h2
        refine ⟨k, data, hp, ?_⟩
        cases b2
        · exact Or.inl h1.symm
        · exact Or.inr h1.symm
      · simp at h
    · simp at h
  · simp at h

theorem chainStep_dist (tol2 : ℚ) (active : Pt) (pool : List (Nat × EntityData))
    (seg : EntityData) (rest : List (Nat × EntityData))
    (hnd : (pool.map Prod.fst).Nodup)
    (h : chainStep tol2 active pool = some (seg, rest)) :
    dist2 active (sPt seg) ≤ tol2 ∧ isCircleB seg.geom = false := by
  unfold chainStep at h
  split at h
  · rename_i k b2 d heq
    split at h
    · rename_i hd
      split at h
      · rename_i data rest2 hp
        obtain ⟨d2, e, hdq, hmem, hnc, hdist⟩ :=
          get_best_spec active pool k b2 (some d) heq
        obtain hd2 : d2 = d := (Option.some.inj hdq).symm
        subst hd2
        simp only [Option.some.injEq, Prod.mk.injEq] at h
        obtain ⟨h1, h2⟩ := h
        have hde : data = e := popKey_val_of_nodup k e pool rest2 data hnd hmem hp
        subst hde
        cases b2 with
        | false =>
          simp only [Bool.false_eq_true, if_false] at h1 hdist
          subst h1
          exact ⟨hdist ▸ hd, hnc⟩
        | true =>
          simp only [if_true] at h1 hdist
          subst h1
          constructor
          · rw [sPt_reverse data hnc]
            exact hdist ▸ hd
          · rw [reverse_isCircleB]
            exact hnc
      · simp at h
    · simp at h
  · simp at h

theorem chainLoop_len (tol2 : ℚ) :
    ∀ (fuel : Nat) (active : Pt) (pool : List (Nat × EntityData)),
      (chainLoop tol2 fuel active pool).2.length ≤ pool.length := by
  intro fuel
  induction fuel with
  | zero => intro active pool; exact Nat.le_refl _
  | succ n ih =>
    intro active pool
    rw [chainLoop]
    cases hs : chainStep tol2 active pool with
    | none => exact Nat.le_refl _
    | some p =>
      obtain ⟨seg, rest⟩ := p
      obtain ⟨k, data, hpop, _⟩ := chainStep_spec tol2 active pool seg rest hs
      have hlen := popKey_length k pool rest data hpop
      calc (chainLoop tol2 n (ePt seg) rest).2.length
          ≤ rest.length := ih _ _
        _ ≤ pool.length := by omega

theorem chainLoop_nodup (tol2 : ℚ) :
    ∀ (fuel : Nat) (active : Pt) (pool : List (Nat × EntityData)),
      (pool.map Prod.fst).Nodup →
      (((chainLoop tol2 fuel active pool).2).map Prod.fst).Nodup := by
  intro fuel
  induction fuel with
  | zero => intro active pool h; exact h
  | succ n ih =>
    intro active pool hnd
    rw [chainLoop]
    cases hs : chainStep tol2 active pool with
    | none => exact hnd
    | some p =>
      obtain ⟨seg, rest⟩ := p
      obtain ⟨k, data, hpop, _⟩ := chainStep_spec tol2 active pool seg rest hs
      exact ih _ _ (popKey_nodup k pool rest data hnd hpop)

theorem chainLoop_all (tol2 : ℚ) (P : EntityData → Prop)
    (hP : ∀ e, P e → P (reverse_segment_direction e)) :
    ∀ (fuel : Nat) (active : Pt) (pool : List (Nat × EntityData)),
      (∀ x ∈ pool, P x.2) →
      (∀ e ∈ (chainLoop tol2 fuel active pool).1, P e)
      ∧ ∀ x ∈ (chainLoop tol2 fuel active pool).2, P x.2 := by
  intro fuel
  induction fuel with
  | zero => intro active pool h; exact ⟨by simp [chainLoop], h⟩
  | succ n ih =>
    intro active pool hpool
    rw [chainLoop]
    cases hs : chainStep tol2 active pool with
    | none => exact ⟨by simp, hpool⟩
    | some p =>
      obtain ⟨seg, rest⟩ := p
      obtain ⟨k, data, hpop, hseg⟩ := chainStep_spec tol2 active pool seg rest hs
      have hdata : P data :=
        hpool _ ((popKey_perm k pool rest data hpop).mem_iff.2
          (List.mem_cons_self _ _))
      have hrest : ∀ x ∈ rest, P x.2 := fun x hx =>
        hpool x (popKey_sub k pool rest data hpop x hx)
      have hsegP : P seg := by
        rcases hseg with h | h
        · exact h ▸ hdata
        · exact h ▸ hP data hdata
      obtain ⟨ih1, ih2⟩ := ih (ePt seg) rest hrest
      refine ⟨?_, ih2⟩
      intro e he
      rcases List.mem_cons.1 he with h | h
      · exact h ▸ hsegP
      · exact ih1 e h

theorem chainLoop_perm (tol2 : ℚ) :
    ∀ (fuel : Nat) (active : Pt) (pool : List (Nat × EntityData)),
      (((chainLoop tol2 fuel active pool).1.map (fun e => e.original_id))
        ++ ((chainLoop tol2 fuel active pool).2.map (fun x => x.2.original_id))).Perm
        (pool.map (fun x => x.2.original_id)) := by
  intro fuel
  induction fuel with
  | zero => intro active pool; simp [chainLoop]
  | succ n ih =>
    intro active pool
    rw [chainLoop]
    cases hs : chainStep tol2 active pool with
    | none => simp
    | some p =>
      obtain ⟨seg, rest⟩ := p
      obtain ⟨k, data, hpop, hseg⟩ := chainStep_spec tol2 active pool seg rest hs
      have hoid : seg.original_id = data.original_id := by
        rcases hseg with h | h
        · rw [h]
        · rw [h, reverse_original_id]
      have hperm := (popKey_perm k pool rest data hpop).map
        (fun x : Nat × EntityData => x.2.original_id)
      simp only [List.map_cons] at hperm
      simp only [List.map_cons, List.cons_append]
      exact (((ih (ePt seg) rest).cons seg.original_id).trans
        (hoid ▸ hperm.symm)).symm.symm

theorem chainLoop_chain (tol2 : ℚ) :
    ∀ (fuel : Nat) (active : Pt) (pool : List (Nat × EntityData)),
      (pool.map Prod.fst).Nodup →
      List.Chain' (fun a b => dist2 (ePt a) (sPt b) ≤ tol2)
        (chainLoop tol2 fuel active pool).1
      ∧ ∀ e, ((chainLoop tol2 fuel active pool).1).head? = some e →
          dist2 active (sPt e) ≤ tol2 := by
  intro fuel
  induction fuel with
  | zero => intro active pool _; exact ⟨by simp [chainLoop], by simp [chainLoop]⟩
  | succ n ih =>
    intro active pool hnd
    rw [chainLoop]
    cases hs : chainStep tol2 active pool with
    | none => exact ⟨by simp, by simp⟩
    | some p =>
      obtain ⟨seg, rest⟩ := p
      obtain ⟨k, data, hpop, _⟩ := chainStep_spec tol2 active pool seg rest hs
      obtain ⟨hdist, _⟩ := chainStep_dist tol2 active pool seg rest hnd hs
      have hndr := popKey_nodup k pool rest data hnd hpop
      obtain ⟨ih1, ih2⟩ := ih (ePt seg) rest hndr
      constructor
      · rw [List.chain'_cons']
        exact ⟨fun b hb => ih2 b (by simpa using hb), ih1⟩
      · intro e he
        simp only [List.head?_cons, Option.some.injEq] at he
        exact he ▸ hdist

theorem defaultFirst_spec (seedUsed : Bool) (pool : List (Nat × EntityData))
    (first : EntityData) (rest : List (Nat × EntityData)) (su2 : Bool)
    (h : defaultFirst seedUsed pool = some (first, rest, su2)) :
    ∃ k data, popKey k pool = some (data, rest)
      ∧ (first = data ∨ first = reverse_segment_direction data) := by
  unfold defaultFirst at h
  split at h
  · rename_i k rev dq heq
    split at h
    · rename_i data rest2 hp
      simp only [Option.some.injEq, Prod.mk.injEq] at h
      obtain ⟨h1, h2, h3⟩ := h
      subst h2
      refine ⟨k, data, hp, ?_⟩
      cases rev
      · exact Or.inl (by simpa using h1.symm)
      · exact Or.inr (by simpa using h1.symm)
    · simp at h
  · simp at h

theorem islandFirst_seed_eq (sd : EntityData)
    (pool : List (Nat × EntityData)) :
    islandFirst (some sd) false pool =
      match popKey sd.id pool with
      | some (data, rest) =>
        some ((if sd.reversed ≠ data.reversed then
          reverse_segment_direction data else data), rest, true)
      | none => defaultFirst false pool := rfl

theorem islandFirst_spec (seed : Option EntityData) (seedUsed : Bool)
    (pool : List (Nat × EntityData)) (first : EntityData)
    (rest : List (Nat × EntityData)) (su2 : Bool)
    (h : islandFirst seed seedUsed pool = some (first, rest, su2)) :
    ∃ k data, popKey k pool = some (data, rest)
      ∧ (first = data ∨ first = reverse_segment_direction data) := by
  unfold islandFirst at h
  split at h
  · rename_i sd
    split at h
    · rename_i data rest2 hp
      simp only [Option.some.injEq, Prod.mk.injEq] at h
      obtain ⟨h1, h2, h3⟩ := h
      subst h2
      refine ⟨sd.id, data, hp, ?_⟩
      by_cases hr : sd.reversed ≠ data.reversed
      · exact Or.inr (by rw [← h1, if_pos hr])
      · exact Or.inl (by rw [← h1, if_neg hr])
    · exact defaultFirst_spec _ pool first rest su2 h
  · exact defaultFirst_spec _ pool first rest su2 h

theorem defaultFirst_isSome (seedUsed : Bool) (pool : List (Nat × EntityData))
    (hne : ∃ x ∈ pool, isCircleB x.2.geom = false) :
    (defaultFirst seedUsed pool).isSome := by
  have hs := get_best_isSome ⟨0, 0⟩ pool hne
  unfold defaultFirst
  split
  · rename_i k rev dq heq
    obtain ⟨d, e, hdq, hmem, _, _⟩ := get_best_spec ⟨0, 0⟩ pool k rev dq heq
    have hpk := popKey_isSome_of_mem k e pool hmem
    split
    · simp
    · rename_i hnone
      rw [hnone] at hpk
      simp at hpk
  · rename_i hcatch
    exfalso
    rcases hb : get_best_candidate_info ⟨0, 0⟩ pool with ⟨b1, b2, b3⟩
    rw [hb] at hs
    cases b1 with
    | none => simp at hs
    | some k => exact hcatch k b2 b3 hb

theorem islandFirst_isSome (seed : Option EntityData) (seedUsed : Bool)
    (pool : List (Nat × EntityData))
    (hne : ∃ x ∈ pool, isCircleB x.2.geom = false) :
    (islandFirst seed seedUsed pool).isSome := by
  cases seed with
  | none =>
    cases seedUsed
    · exact defaultFirst_isSome false pool hne
    · exact defaultFirst_isSome true pool hne
  | some sd =>
    cases seedUsed with
    | true => exact defaultFirst_isSome true pool hne
    | false =>
      rw [islandFirst_seed_eq]
      cases hp : popKey sd.id pool with
      | none => simpa using defaultFirst_isSome false pool hne
      | some p =>
        obtain ⟨data, rest⟩ := p
        simp

theorem autoPathLoop_all (tol2 : ℚ) (seed : Option EntityData)
    (P : EntityData → Prop)
    (hP : ∀ e, P e → P (reverse_segment_direction e)) :
    ∀ (fuel : Nat) (seedUsed : Bool) (pool : List (Nat × EntityData)),
      (∀ x ∈ pool, P x.2) →
      ∀ e ∈ (autoPathLoop tol2 seed fuel seedUsed pool).flatten, P e := by
  intro fuel
  induction fuel with
  | zero => intro seedUsed pool _ e he; simp [autoPathLoop] at he
  | succ n ih =>
    intro seedUsed pool hpool e he
    rw [autoPathLoop] at he
    by_cases hemp : pool.isEmpty
    · rw [if_pos hemp] at he; simp at he
    · rw [if_neg hemp] at he
      cases hi : islandFirst seed seedUsed pool with
      | none => rw [hi] at he; simp at he
      | some p =>
        obtain ⟨first, rest, su2⟩ := p
        rw [hi] at he
        obtain ⟨k, data, hpop, hseg⟩ :=
          islandFirst_spec seed seedUsed pool first rest su2 hi
        have hdata : P data := hpool _
          ((popKey_perm k pool rest data hpop).mem_iff.2 (List.mem_cons_self _ _))
        have hfirst : P first := by
          rcases hseg with h | h
          · exact h ▸ hdata
          · exact h ▸ hP data hdata
        have hrest : ∀ x ∈ rest, P x.2 := fun x hx =>
          hpool x (popKey_sub k pool rest data hpop x hx)
        obtain ⟨hc1, hc2⟩ :=
          chainLoop_all tol2 P hP rest.length (ePt first) rest hrest
        simp only [List.flatten_cons, List.mem_append, List.mem_cons] at he
        rcases he with (h | h) | h
        · exact h ▸ hfirst
        · exact hc1 e h
        · exact ih su2 _ hc2 e h

theorem autoPathLoop_perm (tol2 : ℚ) (seed : Option EntityData) :
    ∀ (fuel : Nat) (seedUsed : Bool) (pool : List (Nat × EntityData)),
      pool.length ≤ fuel → (∀ x ∈ pool, isCircleB x.2.geom = false) →
      ((((autoPathLoop tol2 seed fuel seedUsed pool).flatten).map
          (fun e => e.original_id)).Perm
        (pool.map (fun x => x.2.original_id))) := by
  intro fuel
  induction fuel with
  | zero =>
    intro seedUsed pool hlen _
    have hp : pool = [] := List.length_eq_zero.1 (Nat.le_zero.1 hlen)
    subst hp
    simp [autoPathLoop]
  | succ n ih =>
    intro seedUsed pool hlen hpool
    rw [autoPathLoop]
    by_cases hemp : pool.isEmpty
    · rw [if_pos hemp]
      have hp : pool = [] := List.isEmpty_iff.1 hemp
      subst hp
      simp
    · rw [if_neg hemp]
      have hne : ∃ x ∈ pool, isCircleB x.2.geom = false := by
        cases pool with
        | nil => simp at hemp
        | cons hd tl =>
          exact ⟨hd, List.mem_cons_self _ _, hpool hd (List.mem_cons_self _ _)⟩
      cases hi : islandFirst seed seedUsed pool with
      | none =>
        have hsome := islandFirst_isSome seed seedUsed pool hne
        rw [hi] at hsome
        simp at hsome
      | some p =>
        obtain ⟨first, rest, su2⟩ := p
        obtain ⟨k, data, hpop, hseg⟩ :=
          islandFirst_spec seed seedUsed pool first rest su2 hi
        have hoid : first.original_id = data.original_id := by
          rcases hseg with h | h
          · rw [h]
          · rw [h, reverse_original_id]
        have hrest : ∀ x ∈ rest, isCircleB x.2.geom = false := fun x hx =>
          hpool x (popKey_sub k pool rest data hpop x hx)
        have hlenr : rest.length ≤ n := by
          have := popKey_length k pool rest data hpop
          omega
        obtain ⟨_, hc2⟩ := chainLoop_all tol2
          (fun e => isCircleB e.geom = false)
          (fun e he2 => (reverse_isCircleB e).trans he2)
          rest.length (ePt first) rest hrest
        have hlenc : (chainLoop tol2 rest.length (ePt first) rest).2.length ≤ n :=
          le_trans (chainLoop_len tol2 rest.length (ePt first) rest) hlenr
        have hih := ih su2 _ hlenc hc2
        have hcp := chainLoop_perm tol2 rest.length (ePt first) rest
        have hpk := (popKey_perm k pool rest data hpop).map
          (fun x : Nat × EntityData => x.2.original_id)
        simp only [List.map_cons] at hpk
        simp only [List.flatten_cons, List.map_append, List.map_cons]
        refine List.Perm.trans
          (List.Perm.cons _ (List.Perm.trans (List.Perm.append_left _ hih) hcp)) ?_
        rw [hoid]
        exact hpk.symm

theorem autoPathLoop_chains (tol2 : ℚ) (seed : Option EntityData) :
    ∀ (fuel : Nat) (seedUsed : Bool) (pool : List (Nat × EntityData)),
      (pool.map Prod.fst).Nodup →
      ∀ chain ∈ autoPathLoop tol2 seed fuel seedUsed pool,
        List.Chain' (fun a b => dist2 (ePt a) (sPt b) ≤ tol2) chain := by
  intro fuel
  induction fuel with
  | zero => intro seedUsed pool _ chain hc; simp [autoPathLoop] at hc
  | succ n ih =>
    intro seedUsed pool hnd chain hc
    rw [autoPathLoop] at hc
    by_cases hemp : pool.isEmpty
    · rw [if_pos hemp] at hc; simp at hc
    · rw [if_neg hemp] at hc
      cases hi : islandFirst seed seedUsed pool with
      | none => rw [hi] at hc; simp at hc
      | some p =>
        obtain ⟨first, rest, su2⟩ := p
        rw [hi] at hc
        obtain ⟨k, data, hpop, _⟩ :=
          islandFirst_spec seed seedUsed pool first rest su2 hi
        have hndr : (rest.map Prod.fst).Nodup :=
          popKey_nodup k pool rest data hnd hpop
        obtain ⟨hch, hhd⟩ := chainLoop_chain tol2 rest.length (ePt first) rest hndr
        simp only [List.mem_cons] at hc
        rcases hc with h | h
        · subst h
          rw [List.chain'_cons']
          refine ⟨?_, hch⟩
          intro b hb
          exact hhd b (by simpa using hb)
        · exact ih su2 _
            (chainLoop_nodup tol2 rest.length (ePt first) rest hndr) chain h

/-- C1 (counterexample): on two far-apart lines (spec Example 4's A and B)
the list returned by `generate_auto_path` is the concatenation of two
islands, and the adjacent pair across the island boundary violates the
tolerance: the claim, read over the whole returned ordered list, is false. -/
theorem c1_counterexample :
    ¬ List.Chain' (fun a b => dist2 (ePt a) (sPt b) ≤ exTol2)
      (generate_auto_path exTol2 exTwoIslands none).1 := by
  rw [← contiguous_iff_chain']
  decide

/-- C1 (amended): continuity holds within each greedy chain (island): in
every chain built by one round of the outer loop of `generate_auto_path`,
each adjacent pair satisfies the (squared) tolerance bound.  Adjacent pairs
that span two chains of the concatenated result need not. -/
theorem c1_chain_continuity_amended :
    ∀ (tol2 : ℚ) (input : List (Nat × EntityData)) (seed : Option EntityData),
      (input.map Prod.fst).Nodup →
      ∀ chain ∈ generate_auto_path_chains tol2 input seed,
        List.Chain' (fun a b => dist2 (ePt a) (sPt b) ≤ tol2) chain := by
  intro tol2 input seed hnd chain hc
  unfold generate_auto_path_chains at hc
  by_cases hin : input = []
  · rw [if_pos hin] at hc; simp at hc
  · rw [if_neg hin] at hc
    have hnd0 : ((input.filter fun e => !isCircleB e.2.geom).map Prod.fst).Nodup :=
      List.Nodup.sublist ((List.filter_sublist _).map _) hnd
    exact autoPathLoop_chains tol2 seed _ false _ hnd0 chain hc

/-- C1 (witness): the amended theorem applied to the two-island example; its
first chain is a single segment, trivially continuous. -/
theorem c1_witness :
    List.Chain' (fun a b => dist2 (ePt a) (sPt b) ≤ exTol2) [exLineA] :=
  c1_chain_continuity_amended exTol2 exTwoIslands none (by decide)
    [exLineA] (by decide)

/-- C8 (confirmed): every CIRCLE of the input is returned (in input order) in
the isolated-circles list, and no entity of the returned ordered segment
list is a CIRCLE, whatever the tolerance, the seed and the geometry. -/
theorem c8_circles_never_in_path :
    ∀ (tol2 : ℚ) (input : List (Nat × EntityData)) (seed : Option EntityData),
      (generate_auto_path tol2 input seed).2
          = (input.filter (fun e => isCircleB e.2.geom)).map (fun e => e.2)
      ∧ ∀ e ∈ (generate_auto_path tol2 input seed).1, isCircleB e.geom = false := by
  intro tol2 input seed
  by_cases hin : input = []
  · subst hin
    exact ⟨rfl, by simp [generate_auto_path]⟩
  · constructor
    · simp [generate_auto_path, hin]
    · intro e he
      simp only [generate_auto_path, if_neg hin] at he
      unfold generate_auto_path_chains at he
      rw [if_neg hin] at he
      refine autoPathLoop_all tol2 seed (fun e => isCircleB e.geom = false)
        (fun e he2 => (reverse_isCircleB e).trans he2) _ false _ ?_ e he
      intro x hx
      have hm := List.mem_filter.1 hx
      simpa using hm.2

/-- C8 (witness): the theorem applied to the two-line example and the first
returned segment. -/
theorem c8_witness : isCircleB exLineA.geom = false :=
  (c8_circles_never_in_path exTol2 exTwoIslands none).2 exLineA (by decide)

/-- C10 (confirmed): `generate_auto_path` terminates (it is a total
function) and partitions its input: the multiset of `original_id`s of the
returned ordered segments is exactly that of the input's Line/Arc entries,
the isolated-circles list is exactly the input's Circle entries, and when
the input's `original_id`s are distinct every Line/Arc id occurs exactly
once in the ordered output. -/
theorem c10_partition :
    ∀ (tol2 : ℚ) (input : List (Nat × EntityData)) (seed : Option EntityData),
      (((generate_auto_path tol2 input seed).1.map (fun e => e.original_id)).Perm
        ((input.filter (fun e => !isCircleB e.2.geom)).map
          (fun e => e.2.original_id)))
      ∧ (generate_auto_path tol2 input seed).2
          = (input.filter (fun e => isCircleB e.2.geom)).map (fun e => e.2)
      ∧ ((input.map (fun e => e.2.original_id)).Nodup →
         ∀ k ∈ (input.filter (fun e => !isCircleB e.2.geom)).map
             (fun e => e.2.original_id),
           ((generate_auto_path tol2 input seed).1.map
               (fun e => e.original_id)).count k = 1) := by
  intro tol2 input seed
  have hperm : ((generate_auto_path tol2 input seed).1.map
      (fun e => e.original_id)).Perm
      ((input.filter (fun e => !isCircleB e.2.geom)).map
        (fun e => e.2.original_id)) := by
    by_cases hin : input = []
    · subst hin; simp [generate_auto_path]
    · simp only [generate_auto_path, if_neg hin]
      unfold generate_auto_path_chains
      rw [if_neg hin]
      exact autoPathLoop_perm tol2 seed _ false _ (le_refl _)
        (fun x hx => by simpa using (List.mem_filter.1 hx).2)
  refine ⟨hperm, ?_, ?_⟩
  · by_cases hin : input = []
    · subst hin; rfl
    · simp [generate_auto_path, hin]
  · intro hnd k hk
    rw [hperm.count_eq]
    have hsub : List.Sublist
        ((input.filter fun e => !isCircleB e.2.geom).map
          (fun e => e.2.original_id))
        (input.map (fun e => e.2.original_id)) :=
      (List.filter_sublist _).map _
    exact List.count_eq_one_of_mem (List.Nodup.sublist hsub hnd) hk

/-- C10 (witness): in the two-line example the first line's id occurs exactly
once among the ordered segments. -/
theorem c10_witness :
    ((generate_auto_path exTol2 exTwoIslands none).1.map
        (fun e => e.original_id)).count 1 = 1 :=
  (c10_partition exTol2 exTwoIslands none).2.2 (by decide) 1 (by decide)

/-- C2 (confirmed): for every extracted Arc, the stored `is_clockwise` flag
equals the claim's function of the raw angles — normalize both to `[0,360)`,
then compare the sweeps with the 180-degree threshold, defaulting to
counter-clockwise on equality. -/
theorem c2_arc_clockwise_matches_spec :
    ∀ (entity_id : Nat) (c : Pt) (r sa ea : ℚ) (sp ep : Pt),
      geomCW (extractEntity entity_id (.rawArc c r sa ea sp ep)).geom
        = claimClockwise sa ea := by
  intro entity_id c r sa ea sp ep
  rfl

/-- C4 (counterexample): double reversal of a freshly extracted Line is not
bit-for-bit the identity — the `id_display` string changes format (the colon
after the label is dropped by `reverse_segment_direction`). -/
theorem c4_counterexample :
    reverse_segment_direction (reverse_segment_direction exLineA) ≠ exLineA := by
  decide

/-- C4 (amended): double reversal restores geometry (start/end points,
angles, `is_clockwise`), the `reversed` flag, `id` and `original_id` of every
entity; and for a freshly extracted Arc it restores the whole record
bit-for-bit, `id_display` included.  (Only a Line's `id_display` can differ,
by its separator, as the counterexample shows.) -/
theorem c4_reverse_involutive_amended :
    (∀ e : EntityData,
       (reverse_segment_direction (reverse_segment_direction e)).geom = e.geom
       ∧ (reverse_segment_direction (reverse_segment_direction e)).reversed
           = e.reversed
       ∧ (reverse_segment_direction (reverse_segment_direction e)).id = e.id
       ∧ (reverse_segment_direction (reverse_segment_direction e)).original_id
           = e.original_id)
    ∧ (∀ (entity_id : Nat) (c : Pt) (r sa ea : ℚ) (sp ep : Pt),
       reverse_segment_direction (reverse_segment_direction
           (extractEntity entity_id (.rawArc c r sa ea sp ep)))
         = extractEntity entity_id (.rawArc c r sa ea sp ep)) := by
  constructor
  · intro e
    rcases e with ⟨eid, g, rev, oid, disp⟩
    cases g <;> simp [reverse_segment_direction]
  · intro entity_id c r sa ea sp ep
    simp [extractEntity, reverse_segment_direction]

/-- C5 (counterexample): for the full-circle-style arc with
`start_angle = end_angle = 0`, the `is_clockwise` stored after one reversal
(`true`, the negation of the old flag) differs from the §4.1 derivation
re-applied to the swapped angles (`false`). -/
theorem c5_counterexample :
    geomCW (reverse_segment_direction exFullArc).geom ≠ claimClockwise 0 0 := by
  decide

/-- C5 (amended): one reversal stores the negation of the previous
`is_clockwise` (it does not re-derive it); this negation agrees with the
§4.1 rule applied to the swapped angles whenever the normalized sweep is
neither 0 nor 180 degrees — precisely the two cases the claim singles out,
where it fails. -/
theorem c5_reverse_clockwise_amended :
    ∀ (entity_id : Nat) (c : Pt) (r sa ea : ℚ) (sp ep : Pt),
      geomCW (reverse_segment_direction
          (extractEntity entity_id (.rawArc c r sa ea sp ep))).geom
        = !claimClockwise sa ea
      ∧ (normAngle sa ≠ normAngle ea →
         normAngle ea - normAngle sa ≠ 180 →
         normAngle sa - normAngle ea ≠ 180 →
         geomCW (reverse_segment_direction
             (extractEntity entity_id (.rawArc c r sa ea sp ep))).geom
           = claimClockwise ea sa) := by
  intro entity_id c r sa ea sp ep
  constructor
  · rfl
  · intro h1 h2 h3
    show (!claimClockwise sa ea) = claimClockwise ea sa
    unfold claimClockwise
    rcases lt_trichotomy (normAngle sa) (normAngle ea) with h | h | h
    · rw [if_pos h, if_neg (by linarith : ¬ normAngle ea < normAngle sa),
        if_pos h]
      rcases lt_trichotomy (normAngle ea - normAngle sa) 180 with hd | hd | hd
      · simp [show ¬ (normAngle ea - normAngle sa > 180) by linarith, hd]
      · exact absurd hd h2
      · simp [show normAngle ea - normAngle sa > 180 from hd,
          show ¬ (normAngle ea - normAngle sa < 180) by linarith]
    · exact absurd h h1
    · rw [if_neg (by linarith : ¬ normAngle sa < normAngle ea), if_pos h,
        if_pos h]
      rcases lt_trichotomy (normAngle sa - normAngle ea) 180 with hd | hd | hd
      · simp [hd, show ¬ (normAngle sa - normAngle ea > 180) by linarith]
      · exact absurd hd h3
      · simp [show ¬ (normAngle sa - normAngle ea < 180) by linarith,
          show normAngle sa - normAngle ea > 180 from hd]

/-- C5 (witness): a quarter arc from 0 to 90 degrees satisfies the amended
theorem's side conditions, and there the negated flag does equal the rule
re-applied to the swapped angles. -/
theorem c5_witness :
    geomCW (reverse_segment_direction
        (extractEntity 1 (.rawArc ⟨0, 0⟩ 1 0 90 ⟨1, 0⟩ ⟨0, 1⟩))).geom
      = claimClockwise 90 0 :=
  (c5_reverse_clockwise_amended 1 ⟨0, 0⟩ 1 0 90 ⟨1, 0⟩ ⟨0, 1⟩).2
    (by decide) (by decide) (by decide)

/-- C6 (counterexample): reversing a Circle entity is not a no-op — the
`reversed` flag flips (line 156 of the source runs for every kind). -/
theorem c6_counterexample : reverse_segment_direction exCircle ≠ exCircle := by
  decide

/-- C6 (amended): on a Circle entity, `reverse_segment_direction` leaves
every field unchanged except the `reversed` flag, which it negates. -/
theorem c6_circle_reverse_amended :
    ∀ (e : EntityData) (c : Pt) (r : ℚ), e.geom = .circle c r →
      reverse_segment_direction e = { e with reversed := !e.reversed } := by
  intro e c r h
  rcases e with ⟨eid, g, rev, oid, disp⟩
  cases g with
  | circle c2 r2 => rfl
  | line sp ep => exact absurd h (by simp)
  | arc c2 sp ep r2 sa ea cw => exact absurd h (by simp)

/-- C6 (witness): the amended theorem applied to the example circle. -/
theorem c6_witness :
    reverse_segment_direction exCircle
      = { exCircle with reversed := !exCircle.reversed } :=
  c6_circle_reverse_amended exCircle ⟨5, 5⟩ 3 (by decide)

/-- C9 (confirmed): on an empty entity collection, `generate_auto_path`
returns an empty ordered list and an empty isolated-circles list (and, being
a total function, raises nothing). -/
theorem c9_empty_input :
    ∀ (tol2 : ℚ) (seed : Option EntityData),
      generate_auto_path tol2 [] seed = ([], []) := by
  intro tol2 seed
  rfl

/-- C3 (confirmed): in the LINE/ARC section of `generate_gcode`, every
segment contributes exactly the block described by the claim: a `G00` rapid
traverse to the segment's start point, tagged with the jump marker for the
segment's `original_id`, appears immediately before the segment's motion
command if and only if the (squared) distance from the current position to
that start exceeds the (squared) tolerance, and when it appears the current
position becomes the segment's start point (visible in the arc offsets of
the motion command); the position then advances to the segment's end for the
rest of the list. -/
theorem c3_jump_iff :
    ∀ (tol2 : ℚ) (pos : Pt) (s : EntityData) (rest : List EntityData),
      isCircleB s.geom = false →
      gcodeSegs tol2 pos (s :: rest)
        = claimSegBlock tol2 pos s ++ gcodeSegs tol2 (ePt s) rest := by
  intro tol2 pos s rest hnc
  rw [gcodeSegs, if_neg (by simp [hnc] : ¬ isCircleB s.geom = true)]
  unfold claimSegBlock
  by_cases hj : dist2 pos (sPt s) > tol2
  · simp [hj]
  · simp [hj]

/-- C3 (witness): the theorem applied to a line whose start lies away from
the origin position, so the jump branch is exercised. -/
theorem c3_witness :
    gcodeSegs exTol2 ⟨0, 0⟩ [exLineB]
      = claimSegBlock exTol2 ⟨0, 0⟩ exLineB
          ++ gcodeSegs exTol2 (ePt exLineB) [] :=
  c3_jump_iff exTol2 ⟨0, 0⟩ exLineB [] (by decide)

/-- C7 (counterexample): for a circle whose canonical start point
`center + (radius, 0)` is exactly the initial position `(0,0)`, the codec
still emits the jump-tagged rapid traverse (line index 4 below targets
`(0,0)`, where the tool already is after the initial positioning command at
index 1): the claim's "only if the current position is not already there" is
false of the code, which emits the jump unconditionally. -/
theorem c7_counterexample :
    generate_gcode exTol2 [] [exCircleAtOrigin] ⟨0, 0⟩
      = [(.setup, .initSetup), (.rapid 0 0, .initPosition),
         (.comment "Start of DXF Path (Lines and Arcs)", .pathCommentLinesArcs),
         (.comment "Start of DXF Isolated Circles", .pathCommentCircles),
         (.rapid 0 0, .jumpToCircle 1),
         (.circular false 0 0 (-1) 0, .dxfId 1),
         (.progEnd, .programEnd)] := by decide

/-- C7 (amended): for each isolated circle the codec always (not only when
the position differs) emits the jump-tagged rapid traverse to the canonical
start point `center + (radius, 0)`, then exactly one counter-clockwise full
circular command back to that same point with center offsets
`(-radius, 0)`, tagged with the circle's `original_id`. -/
theorem c7_isolated_circle_amended :
    ∀ (cs : List EntityData), (∀ c ∈ cs, isCircleB c.geom = true) →
      gcodeCircles cs = cs.flatMap circleBlock := by
  intro cs
  induction cs with
  | nil => intro _; rfl
  | cons hd tl ih =>
    intro hall
    have hhd := hall hd (List.mem_cons_self _ _)
    have htl := ih (fun c hc => hall c (List.mem_cons_of_mem _ hc))
    rcases hd with ⟨eid, g, rev, oid, disp⟩
    cases g with
    | circle center radius =>
      have h1 : center.x - (center.x + radius) = -radius := by ring
      have h2 : center.y - center.y = 0 := by ring
      simp [gcodeCircles, circleBlock, h1, h2, htl]
    | line sp ep => simp [isCircleB] at hhd
    | arc c sp ep r sa ea cw => simp [isCircleB] at hhd

/-- C7 (witness): the amended theorem applied to the example circle. -/
theorem c7_witness :
    gcodeCircles [exCircleAtOrigin] = [exCircleAtOrigin].flatMap circleBlock :=
  c7_isolated_circle_amended [exCircleAtOrigin] (by decide)

end DxfProcessor
